import Mathlib

/-!
Verification of the embedded modal terminal text editor of the
writers-cli repository (rust-cli/src/editor/{buffer,cursor,editor,screen}.rs).

The Rust code is shallowly embedded as follows.

* A Rust `String` is modelled as its list of Unicode scalar values
  (`RLine := List Char`).  The source indexes lines by BYTE positions
  (`String::len`, `String::insert`, `String::remove`, `str::split_at`), so
  byte positions are recovered through the UTF-8 encoded length `utf8Len` of
  each char.  The byte-indexed `String` operations panic in Rust when the
  index does not fall on a char boundary; such operations are therefore
  `Option`-valued here, `none` modelling a Rust panic.
* `VecDeque` stacks are modelled as lists whose head is the front (oldest)
  element: `push_back` appends, `pop_back` takes the last element,
  `pop_front` drops the head.
* The editor session controller (`WritersEditor`) is a state record; the
  terminal, the file system and rendering are outside the model.  `save_file`
  is modelled on its success path (the write succeeds); key events carry the
  key code and the CONTROL modifier, the only modifier the handlers inspect.
* `std::time::Instant` timestamps are modelled as milliseconds (`Nat`), so
  `duration_since` is truncated subtraction.
-/

namespace WritersCli

/-- UTF-8 encoded length, in bytes, of a Unicode scalar value; this is the
number of bytes the char occupies inside a Rust `String`. -/
def utf8Len (c : Char) : Nat :=
  if c.toNat < 128 then 1
  else if c.toNat < 2048 then 2
  else if c.toNat < 65536 then 3
  else 4

/-- A Rust `String` of the source, seen as its sequence of chars. -/
abbrev RLine := List Char

/-- Byte length of a line: `String::len` of the source. -/
def byteLen (l : RLine) : Nat := (l.map utf8Len).sum

/-- The char index corresponding to byte index `i` when `i` falls on a char
boundary of the UTF-8 encoding of `l`; `none` when `i` is inside a
multi-byte char or past the end.  Rust `String` byte-indexed operations
panic exactly in the `none` cases. -/
def charIdxAtByte : RLine → Nat → Option Nat
  | _, 0 => some 0
  | [], _ + 1 => none
  | c :: cs, i + 1 =>
    if utf8Len c ≤ i + 1 then (charIdxAtByte cs (i + 1 - utf8Len c)).map (· + 1)
    else none

/-- Rust `String::insert` at byte index `i`; panics (`none`) off a char
boundary or past the end. -/
def stringInsert (l : RLine) (i : Nat) (ch : Char) : Option RLine :=
  (charIdxAtByte l i).map fun k => l.take k ++ ch :: l.drop k

/-- Rust `String::remove` at byte index `i`; the source only calls it with
`i` below the byte length, so only the boundary check can fail. -/
def stringRemove (l : RLine) (i : Nat) : Option RLine :=
  match charIdxAtByte l i with
  | none => none
  | some k => if k < l.length then some (l.take k ++ l.drop (k + 1)) else none

/-- Rust `str::split_at` at byte index `i`; panics (`none`) off a char
boundary. -/
def stringSplitAt (l : RLine) (i : Nat) : Option (RLine × RLine) :=
  (charIdxAtByte l i).map fun k => (l.take k, l.drop k)

/-- Rust `char::is_whitespace`: the Unicode White_Space property. -/
def rustIsWhitespace (c : Char) : Bool :=
  (9 ≤ c.toNat && c.toNat ≤ 13) || c.toNat == 32 || c.toNat == 133 ||
  c.toNat == 160 || c.toNat == 5760 || (8192 ≤ c.toNat && c.toNat ≤ 8202) ||
  c.toNat == 8232 || c.toNat == 8233 || c.toNat == 8239 || c.toNat == 8287 ||
  c.toNat == 12288

/-- BufferState of buffer.rs: one history snapshot. -/
structure BufferState where
  lines : List RLine
  cursor_row : Nat
  cursor_col : Nat
  deriving DecidableEq, Repr

/-- TextBuffer of buffer.rs. -/
structure TextBuffer where
  lines : List RLine
  file_path : Option String
  undo_stack : List BufferState
  redo_stack : List BufferState
  max_undo_levels : Nat
  deriving DecidableEq, Repr

/-- TextBuffer::new. -/
def TextBuffer.new : TextBuffer :=
  { lines := [[]], file_path := none, undo_stack := [], redo_stack := [],
    max_undo_levels := 100 }

/-- TextBuffer::line_count. -/
def TextBuffer.line_count (b : TextBuffer) : Nat := b.lines.length

/-- TextBuffer::get_line: the line at `row`, or the empty string when out of
range. -/
def TextBuffer.get_line (b : TextBuffer) (row : Nat) : RLine :=
  (b.lines.get? row).getD []

/-- TextBuffer::get_line_length: the BYTE length of the line at `row`, or 0
when out of range. -/
def TextBuffer.get_line_length (b : TextBuffer) (row : Nat) : Nat :=
  byteLen (b.get_line row)

/-- TextBuffer::save_state: push a snapshot on the undo stack, evict the
oldest entry when the stack exceeds max_undo_levels, clear the redo stack. -/
def TextBuffer.save_state (b : TextBuffer) (cursor_row cursor_col : Nat) :
    TextBuffer :=
  { b with
    undo_stack :=
      if b.max_undo_levels <
          (b.undo_stack ++ [(⟨b.lines, cursor_row, cursor_col⟩ : BufferState)]).length
      then (b.undo_stack ++ [(⟨b.lines, cursor_row, cursor_col⟩ : BufferState)]).tail
      else b.undo_stack ++ [(⟨b.lines, cursor_row, cursor_col⟩ : BufferState)]
    redo_stack := [] }

/-- TextBuffer::insert_char.  Pads with empty lines when `row` is past the
end, clamps `col` to the byte length, then byte-inserts (which panics,
`none`, off a char boundary). -/
def TextBuffer.insert_char (b : TextBuffer) (row col : Nat) (ch : Char) :
    Option TextBuffer :=
  let b1 := b.save_state row col
  let padded :=
    if b1.lines.length ≤ row
    then b1.lines ++ List.replicate (row + 1 - b1.lines.length) []
    else b1.lines
  let line := (padded.get? row).getD []
  let c := min col (byteLen line)
  (stringInsert line c ch).map fun l => { b1 with lines := padded.set row l }

/-- TextBuffer::delete_char.  Early return when `row` is out of range;
otherwise snapshots, then removes the char at byte `col` when `col` is
below the line's byte length. -/
def TextBuffer.delete_char (b : TextBuffer) (row col : Nat) :
    Option TextBuffer :=
  if b.lines.length ≤ row then some b
  else
    let b1 := b.save_state row col
    let line := (b1.lines.get? row).getD []
    if col < byteLen line then
      (stringRemove line col).map fun l => { b1 with lines := b1.lines.set row l }
    else some b1

/-- TextBuffer::insert_newline.  Snapshots first; appends one empty line
when `row` is past the end, otherwise splits the line at byte
`min col len`. -/
def TextBuffer.insert_newline (b : TextBuffer) (row col : Nat) :
    Option TextBuffer :=
  let b1 := b.save_state row col
  if b1.lines.length ≤ row then some { b1 with lines := b1.lines ++ [[]] }
  else
    let line := (b1.lines.get? row).getD []
    let c := min col (byteLen line)
    (stringSplitAt line c).map fun p =>
      { b1 with lines := (b1.lines.set row p.1).insertIdx (row + 1) p.2 }

/-- TextBuffer::delete_line.  Early return when out of range; reinserts one
empty line when the document would become empty. -/
def TextBuffer.delete_line (b : TextBuffer) (row : Nat) : TextBuffer :=
  if b.lines.length ≤ row then b
  else
    let b1 := b.save_state row 0
    let ls := b1.lines.eraseIdx row
    { b1 with lines := if ls.isEmpty then [[]] else ls }

/-- TextBuffer::join_lines.  Early return when `row` is at or past the
second-to-last index; otherwise removes line `row + 1` and appends it to
line `row`. -/
def TextBuffer.join_lines (b : TextBuffer) (row : Nat) : TextBuffer :=
  if b.lines.length - 1 ≤ row then b
  else
    let b1 := b.save_state row 0
    let nxt := (b1.lines.get? (row + 1)).getD []
    let ls := b1.lines.eraseIdx (row + 1)
    { b1 with lines := ls.set row (((ls.get? row).getD []) ++ nxt) }

/-- TextBuffer::undo: pop the undo stack, push the current document on the
redo stack, restore the popped lines; the Bool reports whether anything was
restored. -/
def TextBuffer.undo (b : TextBuffer) : Bool × TextBuffer :=
  match b.undo_stack.getLast? with
  | none => (false, b)
  | some st =>
    (true, { b with
      lines := st.lines
      undo_stack := b.undo_stack.dropLast
      redo_stack := b.redo_stack ++ [⟨b.lines, 0, 0⟩] })

/-- TextBuffer::redo: the mirror image of undo. -/
def TextBuffer.redo (b : TextBuffer) : Bool × TextBuffer :=
  match b.redo_stack.getLast? with
  | none => (false, b)
  | some st =>
    (true, { b with
      lines := st.lines
      redo_stack := b.redo_stack.dropLast
      undo_stack := b.undo_stack ++ [⟨b.lines, 0, 0⟩] })

/-- Cursor of cursor.rs: row, column (a byte position) and the sticky
preferred column used by vertical motion. -/
structure Cursor where
  row : Nat
  col : Nat
  preferred_col : Nat
  deriving DecidableEq, Repr

/-- Cursor::new. -/
def Cursor.new : Cursor := { row := 0, col := 0, preferred_col := 0 }

/-- Cursor::move_left. -/
def Cursor.move_left (cur : Cursor) : Cursor :=
  if 0 < cur.col then
    { cur with col := cur.col - 1, preferred_col := cur.col - 1 }
  else cur

/-- Cursor::move_right. -/
def Cursor.move_right (cur : Cursor) (b : TextBuffer) : Cursor :=
  if cur.col < b.get_line_length cur.row then
    { cur with col := cur.col + 1, preferred_col := cur.col + 1 }
  else cur

/-- Cursor::move_up: moves to the preferred column on the previous line
WITHOUT clamping it to that line's length. -/
def Cursor.move_up (cur : Cursor) : Cursor :=
  if 0 < cur.row then { cur with row := cur.row - 1, col := cur.preferred_col }
  else cur

/-- Cursor::move_down: moves to the preferred column on the next line,
clamped to that line's length. -/
def Cursor.move_down (cur : Cursor) (b : TextBuffer) : Cursor :=
  if cur.row < b.line_count - 1 then
    let r := cur.row + 1
    let ll := b.get_line_length r
    let c0 := if ll < cur.preferred_col then ll else cur.preferred_col
    { cur with row := r, col := c0 }
  else cur

/-- Cursor::move_to_start_of_line. -/
def Cursor.move_to_start_of_line (cur : Cursor) : Cursor :=
  { cur with col := 0, preferred_col := 0 }

/-- Cursor::move_to_end_of_line. -/
def Cursor.move_to_end_of_line (cur : Cursor) (b : TextBuffer) : Cursor :=
  let l := b.get_line_length cur.row
  { cur with col := l, preferred_col := l }

/-- Cursor::clamp_to_buffer.  Note: defined in cursor.rs but never called
anywhere in the session controller. -/
def Cursor.clamp_to_buffer (cur : Cursor) (b : TextBuffer) : Cursor :=
  if b.line_count = 0 then { row := 0, col := 0, preferred_col := 0 }
  else
    let r := min cur.row (b.line_count - 1)
    let c := min cur.col (b.get_line_length r)
    { row := r, col := c, preferred_col := c }

/-- Forward scan of the `while pos < chars.len() && p(chars[pos])` loops of
Cursor::move_word_right: first position at or after `pos` where `p` fails,
or the length of `chars`. -/
def skipWhileFwd (p : Char → Bool) (chars : List Char) (pos : Nat) : Nat :=
  if h : pos < chars.length then
    if p (chars.get ⟨pos, h⟩) then skipWhileFwd p chars (pos + 1) else pos
  else pos
termination_by chars.length - pos
decreasing_by omega

/-- Backward scan of the `while pos > 0 && p(chars[pos])` loops of
Cursor::move_word_left.  Rust indexes `chars[pos]` before testing, panicking
(`none`) when `pos` is out of bounds. -/
def skipBackWhile (p : Char → Bool) (chars : List Char) : Nat → Option Nat
  | 0 => some 0
  | pos + 1 =>
    match chars.get? (pos + 1) with
    | none => none
    | some c => if p c then skipBackWhile p chars pos else some (pos + 1)

/-- Cursor::move_word_left.  The column is a byte index but is used to
index the char vector, so a byte column past the char count panics
(`none`). -/
def Cursor.move_word_left (cur : Cursor) (b : TextBuffer) : Option Cursor :=
  let line := b.get_line cur.row
  if cur.col = 0 then
    if 0 < cur.row then
      let l := b.get_line_length (cur.row - 1)
      some { row := cur.row - 1, col := l, preferred_col := l }
    else some cur
  else
    match skipBackWhile rustIsWhitespace line (cur.col - 1) with
    | none => none
    | some p1 =>
      match skipBackWhile (fun c => !rustIsWhitespace c) line p1 with
      | none => none
      | some p2 =>
        if 0 < p2 then
          match line.get? p2 with
          | none => none
          | some c =>
            let r := if rustIsWhitespace c then p2 + 1 else p2
            some { cur with col := r, preferred_col := r }
        else some { cur with col := p2, preferred_col := p2 }

/-- Cursor::move_word_right. -/
def Cursor.move_word_right (cur : Cursor) (b : TextBuffer) : Cursor :=
  let line := b.get_line cur.row
  let line_len := byteLen line
  if line_len ≤ cur.col then
    if cur.row < b.line_count - 1 then
      { row := cur.row + 1, col := 0, preferred_col := 0 }
    else cur
  else
    let p1 := skipWhileFwd (fun c => !rustIsWhitespace c) line cur.col
    let p2 := skipWhileFwd rustIsWhitespace line p1
    let c := min p2 line_len
    { cur with col := c, preferred_col := c }

/-- Key codes of the crossterm events the handlers of editor.rs match on. -/
inductive KeyCode where
  | char (c : Char)
  | enter
  | esc
  | backspace
  | del
  | tab
  | left
  | right
  | up
  | down
  | pageUp
  | pageDown
  | fkey (n : Nat)
  deriving DecidableEq, Repr

/-- A key event: the key code and whether the CONTROL modifier is held (the
only modifier the handlers of editor.rs inspect). -/
structure KeyEvent where
  code : KeyCode
  ctrl : Bool
  deriving DecidableEq, Repr

/-- EditorMode of editor.rs. -/
inductive EditorMode where
  | navigation
  | insert
  deriving DecidableEq, Repr

/-- WritersEditor of editor.rs, restricted to the state the key handlers
read and write; the terminal resources are outside the model and
`std::time::Instant` is milliseconds. -/
structure EditorState where
  buffer : TextBuffer
  cursor : Cursor
  screen_width : Nat
  screen_height : Nat
  mode : EditorMode
  should_quit : Bool
  status_message : String
  search_term : String
  is_dirty : Bool
  typewriter_mode : Bool
  distraction_free : Bool
  show_line_numbers : Bool
  last_key : Option KeyEvent
  last_key_time : Nat
  deriving DecidableEq, Repr

/-- WritersEditor::new (Screen::new gives the 80x24 fallback size). -/
def EditorState.new : EditorState :=
  { buffer := TextBuffer.new, cursor := Cursor.new, screen_width := 80,
    screen_height := 24, mode := EditorMode.navigation, should_quit := false,
    status_message := "Ready", search_term := "", is_dirty := false,
    typewriter_mode := false, distraction_free := false,
    show_line_numbers := true, last_key := none, last_key_time := 0 }

/-- Screen::get_editor_height: terminal height minus the 3 reserved rows. -/
def EditorState.get_editor_height (s : EditorState) : Nat :=
  s.screen_height - 3

/-- WritersEditor::insert_char: buffer insert (can panic), cursor right,
mark dirty. -/
def EditorState.insert_char (s : EditorState) (c : Char) : Option EditorState :=
  (s.buffer.insert_char s.cursor.row s.cursor.col c).map fun b =>
    { s with buffer := b, cursor := s.cursor.move_right b, is_dirty := true }

/-- WritersEditor::insert_newline: buffer newline (can panic), cursor down,
column zero, mark dirty. -/
def EditorState.insert_newline (s : EditorState) : Option EditorState :=
  (s.buffer.insert_newline s.cursor.row s.cursor.col).map fun b =>
    let c1 := s.cursor.move_down b
    { s with buffer := b, cursor := { c1 with col := 0 }, is_dirty := true }

/-- WritersEditor::backspace: delete before the cursor, or join with the
previous line when at column 0. -/
def EditorState.backspace (s : EditorState) : Option EditorState :=
  if 0 < s.cursor.col then
    let c1 := s.cursor.move_left
    (s.buffer.delete_char c1.row c1.col).map fun b =>
      { s with buffer := b, cursor := c1, is_dirty := true }
  else if 0 < s.cursor.row then
    let line_len := s.buffer.get_line_length (s.cursor.row - 1)
    let b := s.buffer.join_lines (s.cursor.row - 1)
    let c1 := s.cursor.move_up
    some { s with buffer := b, cursor := { c1 with col := line_len },
                  is_dirty := true }
  else some { s with is_dirty := true }

/-- WritersEditor::delete_char. -/
def EditorState.delete_char (s : EditorState) : Option EditorState :=
  (s.buffer.delete_char s.cursor.row s.cursor.col).map fun b =>
    { s with buffer := b, is_dirty := true }

/-- WritersEditor::delete_line: buffer delete, clamp the cursor row to the
new line count, column zero, mark dirty. -/
def EditorState.delete_line (s : EditorState) : EditorState :=
  let b := s.buffer.delete_line s.cursor.row
  let r := if b.line_count ≤ s.cursor.row ∧ 0 < b.line_count
           then b.line_count - 1 else s.cursor.row
  { s with buffer := b, cursor := { s.cursor with row := r, col := 0 },
           is_dirty := true }

/-- WritersEditor::insert_tab: four space insertions. -/
def EditorState.insert_tab (s : EditorState) : Option EditorState :=
  (s.insert_char ' ').bind fun s1 =>
    (s1.insert_char ' ').bind fun s2 =>
      (s2.insert_char ' ').bind fun s3 => s3.insert_char ' '

/-- WritersEditor::undo: the cursor is NOT touched. -/
def EditorState.undo (s : EditorState) : EditorState :=
  let r := s.buffer.undo
  if r.1 then { s with buffer := r.2, status_message := "Undo", is_dirty := true }
  else { s with buffer := r.2 }

/-- WritersEditor::redo: the cursor is NOT touched. -/
def EditorState.redo (s : EditorState) : EditorState :=
  let r := s.buffer.redo
  if r.1 then { s with buffer := r.2, status_message := "Redo", is_dirty := true }
  else { s with buffer := r.2 }

/-- WritersEditor::page_up. -/
def EditorState.page_up (s : EditorState) : EditorState :=
  { s with cursor := (fun c => c.move_up)^[s.get_editor_height - 1] s.cursor }

/-- WritersEditor::page_down. -/
def EditorState.page_down (s : EditorState) : EditorState :=
  { s with
    cursor := (fun c => c.move_down s.buffer)^[s.get_editor_height - 1] s.cursor }

/-- WritersEditor::toggle_typewriter_mode. -/
def EditorState.toggle_typewriter_mode (s : EditorState) : EditorState :=
  let t := !s.typewriter_mode
  { s with
    typewriter_mode := t,
    status_message := if t then "Typewriter mode: ON" else "Typewriter mode: OFF" }

/-- WritersEditor::toggle_distraction_free. -/
def EditorState.toggle_distraction_free (s : EditorState) : EditorState :=
  let t := !s.distraction_free
  { s with
    distraction_free := t,
    status_message :=
      if t then "Distraction-free mode: ON" else "Distraction-free mode: OFF" }

/-- WritersEditor::save_file, on the success path of the file write. -/
def EditorState.save_file (s : EditorState) : EditorState :=
  match s.buffer.file_path with
  | some p => { s with is_dirty := false, status_message := "Saved: " ++ p }
  | none => { s with status_message := "No file path set" }

/-- WritersEditor::enter_search_mode (a stub in the source). -/
def EditorState.enter_search_mode (s : EditorState) : EditorState :=
  { s with status_message := "Search: " }

/-- WritersEditor::handle_navigation_key, with the match arms in source
order; guarded arms fall through exactly as in Rust. -/
def EditorState.handle_navigation_key (s : EditorState) (k : KeyEvent)
    (is_double_key : Bool) : Option EditorState :=
  if k.code = KeyCode.char 'q' ∧ k.ctrl then
    if s.is_dirty then
      let s1 := { s with status_message := "File has unsaved changes. Press Ctrl+Q again to quit without saving, or Ctrl+S to save first" }
      some (if is_double_key then { s1 with should_quit := true } else s1)
    else some { s with should_quit := true }
  else if k.code = KeyCode.char 's' ∧ k.ctrl then some s.save_file
  else if k.code = KeyCode.char 'z' ∧ k.ctrl then some s.undo
  else if k.code = KeyCode.char 'y' ∧ k.ctrl then some s.redo
  else if k.code = KeyCode.char 't' ∧ k.ctrl then some s.toggle_typewriter_mode
  else if k.code = KeyCode.fkey 3 then some s.toggle_distraction_free
  else if k.code = KeyCode.char '/' then some s.enter_search_mode
  else if k.code = KeyCode.char 'i' then
    some { s with mode := EditorMode.insert, status_message := "-- INSERT --" }
  else if k.code = KeyCode.char 'a' then
    some { s with cursor := s.cursor.move_right s.buffer,
                  mode := EditorMode.insert, status_message := "-- INSERT --" }
  else if k.code = KeyCode.char 'o' then
    let s1 := { s with cursor := s.cursor.move_to_end_of_line s.buffer }
    s1.insert_newline.map fun s2 =>
      { s2 with mode := EditorMode.insert, status_message := "-- INSERT --" }
  else if k.code = KeyCode.char '0' then
    some { s with cursor := s.cursor.move_to_start_of_line }
  else if k.code = KeyCode.char '$' then
    some { s with cursor := s.cursor.move_to_end_of_line s.buffer }
  else if k.code = KeyCode.char 'd' ∧ is_double_key then some s.delete_line
  else if k.code = KeyCode.char 'h' ∨ k.code = KeyCode.left then
    some { s with cursor := s.cursor.move_left }
  else if k.code = KeyCode.char 'j' ∨ k.code = KeyCode.char 's' ∨ k.code = KeyCode.down then
    some { s with cursor := s.cursor.move_down s.buffer }
  else if k.code = KeyCode.char 'k' ∨ k.code = KeyCode.char 'w' ∨ k.code = KeyCode.up then
    some { s with cursor := s.cursor.move_up }
  else if k.code = KeyCode.char 'l' ∨ k.code = KeyCode.right then
    some { s with cursor := s.cursor.move_right s.buffer }
  else if k.code = KeyCode.char 'A' then
    some { s with cursor := s.cursor.move_left }
  else if k.code = KeyCode.char 'S' then
    some { s with cursor := s.cursor.move_down s.buffer }
  else if k.code = KeyCode.char 'W' then
    some { s with cursor := s.cursor.move_up }
  else if k.code = KeyCode.char 'D' then
    some { s with cursor := s.cursor.move_right s.buffer }
  else if k.code = KeyCode.pageUp then some s.page_up
  else if k.code = KeyCode.pageDown then some s.page_down
  else some s

/-- WritersEditor::handle_insert_key, with the match arms in source order.
Note the unguarded `Char(c)` arm catches Ctrl-modified letters. -/
def EditorState.handle_insert_key (s : EditorState) (k : KeyEvent) :
    Option EditorState :=
  if k.code = KeyCode.esc then
    some { s with mode := EditorMode.navigation, status_message := "Ready" }
  else if k.code = KeyCode.char 's' ∧ k.ctrl then some s.save_file
  else if k.code = KeyCode.char 'q' ∧ k.ctrl then
    if s.is_dirty then
      some { s with status_message := "File has unsaved changes. Save first with Ctrl+S" }
    else some { s with should_quit := true }
  else
    match k.code with
    | KeyCode.char c => s.insert_char c
    | KeyCode.enter => s.insert_newline
    | KeyCode.backspace => s.backspace
    | KeyCode.del => s.delete_char
    | KeyCode.tab => s.insert_tab
    | KeyCode.left => some { s with cursor := s.cursor.move_left }
    | KeyCode.right => some { s with cursor := s.cursor.move_right s.buffer }
    | KeyCode.up => some { s with cursor := s.cursor.move_up }
    | KeyCode.down => some { s with cursor := s.cursor.move_down s.buffer }
    | _ => some s

/-- WritersEditor::handle_key_event: chord detection (same key code within
500 ms) then mode dispatch, then the chord memory update. -/
def EditorState.handle_key_event (s : EditorState) (k : KeyEvent) (now : Nat) :
    Option EditorState :=
  let is_double_key :=
    match s.last_key with
    | some lk => decide (now - s.last_key_time < 500) && decide (lk.code = k.code)
    | none => false
  let r :=
    match s.mode with
    | EditorMode.navigation => s.handle_navigation_key k is_double_key
    | EditorMode.insert => s.handle_insert_key k
  r.map fun s1 => { s1 with last_key := some k, last_key_time := now }

/-- The buffer operation language: the five mutating operations of
TextBuffer together with undo and redo. -/
inductive BufOp where
  | insertChar (row col : Nat) (ch : Char)
  | deleteChar (row col : Nat)
  | insertNewline (row col : Nat)
  | deleteLine (row : Nat)
  | joinLines (row : Nat)
  | undoOp
  | redoOp
  deriving DecidableEq, Repr

/-- Apply one buffer operation; `none` models a Rust panic. -/
def applyOp (b : TextBuffer) : BufOp → Option TextBuffer
  | .insertChar r c ch => b.insert_char r c ch
  | .deleteChar r c => b.delete_char r c
  | .insertNewline r c => b.insert_newline r c
  | .deleteLine r => some (b.delete_line r)
  | .joinLines r => some (b.join_lines r)
  | .undoOp => some (b.undo).2
  | .redoOp => some (b.redo).2

/-- Apply a sequence of buffer operations left to right. -/
def applyOps (b : TextBuffer) : List BufOp → Option TextBuffer
  | [] => some b
  | op :: ops => (applyOp b op).bind fun b1 => applyOps b1 ops

/-- The mutating operations that reach `save_state` (rather than an
out-of-range early return): insert_char and insert_newline always snapshot,
the other three only with the row in range. -/
def recordsSnapshot (b : TextBuffer) : BufOp → Prop
  | .insertChar _ _ _ => True
  | .deleteChar r _ => r < b.lines.length
  | .insertNewline _ _ => True
  | .deleteLine r => r < b.lines.length
  | .joinLines r => r < b.lines.length - 1
  | .undoOp => False
  | .redoOp => False

section Helpers

variable {α : Type _}

theorem listSet_getElem_self (l : List α) (n : Nat) (h : n < l.length) :
    l.set n l[n] = l := by
  apply List.ext_getElem
  · simp
  · intro i h1 h2
    rw [List.getElem_set]
    split
    · subst i; rfl
    · rfl

theorem save_state_lines (b : TextBuffer) (r c : Nat) :
    (b.save_state r c).lines = b.lines := rfl

theorem save_state_redo (b : TextBuffer) (r c : Nat) :
    (b.save_state r c).redo_stack = [] := rfl

theorem save_state_getLast (b : TextBuffer) (r c : Nat)
    (hmax : 0 < b.max_undo_levels) :
    ((b.save_state r c).undo_stack).getLast? = some ⟨b.lines, r, c⟩ := by
  have hrw : (b.save_state r c).undo_stack =
      if b.max_undo_levels <
          (b.undo_stack ++ [(⟨b.lines, r, c⟩ : BufferState)]).length
      then (b.undo_stack ++ [(⟨b.lines, r, c⟩ : BufferState)]).tail
      else b.undo_stack ++ [(⟨b.lines, r, c⟩ : BufferState)] := rfl
  rw [hrw]
  split
  case isTrue h =>
    cases hu : b.undo_stack with
    | nil =>
      rw [hu] at h
      simp at h
      omega
    | cons x xs => exact List.getLast?_concat _
  case isFalse h => exact List.getLast?_concat _

theorem undo_of_getLast (b : TextBuffer) (st : BufferState)
    (hu : b.undo_stack.getLast? = some st) :
    b.undo = (true, { b with
      lines := st.lines
      undo_stack := b.undo_stack.dropLast
      redo_stack := b.redo_stack ++ [⟨b.lines, 0, 0⟩] }) := by
  unfold TextBuffer.undo
  rw [hu]

theorem redo_of_getLast (b : TextBuffer) (st : BufferState)
    (hu : b.redo_stack.getLast? = some st) :
    b.redo = (true, { b with
      lines := st.lines
      redo_stack := b.redo_stack.dropLast
      undo_stack := b.undo_stack ++ [⟨b.lines, 0, 0⟩] }) := by
  unfold TextBuffer.redo
  rw [hu]

end Helpers

/-- Claim C6, counterexample.  On the buffer with lines "a" and "long" and
the cursor at row 1, column 4 (preferred column 4), move_up restores the
preferred column 4 on row 0 although line 0 only has length 1: the claim
that the column is clamped to the destination line's length (and so never
exceeds it) after moveUp is false. -/
theorem C6_counterexample :
    (Cursor.move_up ⟨1, 4, 4⟩).row = 0 ∧
    (Cursor.move_up ⟨1, 4, 4⟩).col = 4 ∧
    TextBuffer.get_line_length
      ⟨[['a'], ['l','o','n','g']], none, [], [], 100⟩
      (Cursor.move_up ⟨1, 4, 4⟩).row = 1 ∧
    ¬((Cursor.move_up ⟨1, 4, 4⟩).col ≤
      TextBuffer.get_line_length
        ⟨[['a'], ['l','o','n','g']], none, [], [], 100⟩
        (Cursor.move_up ⟨1, 4, 4⟩).row) := by
  decide

/-- Claim C6, amended.  Vertical moves leave the preferred column
unchanged; move_down sets the column to the preferred column clamped to the
destination line's length, but move_up restores the preferred column
WITHOUT clamping, so after move_up the column can exceed the current line's
length. -/
theorem C6_amended (b : TextBuffer) (cur : Cursor) :
    (cur.move_up).preferred_col = cur.preferred_col ∧
    (cur.move_down b).preferred_col = cur.preferred_col ∧
    (cur.move_up).row = (if 0 < cur.row then cur.row - 1 else cur.row) ∧
    (cur.move_up).col = (if 0 < cur.row then cur.preferred_col else cur.col) ∧
    (cur.move_down b).row =
      (if cur.row < b.line_count - 1 then cur.row + 1 else cur.row) ∧
    (cur.move_down b).col =
      (if cur.row < b.line_count - 1
       then min cur.preferred_col (b.get_line_length (cur.row + 1))
       else cur.col) := by
  refine ⟨?_, ?_, ?_, ?_, ?_, ?_⟩ <;>
    simp only [Cursor.move_up, Cursor.move_down] <;>
    split <;> simp [Nat.min_def] <;>
    first
      | rfl
      | omega
      | (split <;> omega)
      | (split <;> split <;> omega)

/-- Claim C10: delete_char with the row in range but the column at or past
the line's end changes no line, yet snapshots the document on the undo
stack and clears the redo stack, so a following undo returns true and
restores an identical document; delete_char with the row out of range
returns the buffer entirely unchanged, history stacks included. -/
theorem C10_delete_char_frame (b : TextBuffer) (row col : Nat)
    (hmax : 0 < b.max_undo_levels)
    (hrow : row < b.lines.length)
    (hcol : b.get_line_length row ≤ col) :
    b.delete_char row col = some (b.save_state row col) ∧
    (b.save_state row col).lines = b.lines ∧
    (b.save_state row col).redo_stack = [] ∧
    ((b.save_state row col).undo_stack).getLast? = some ⟨b.lines, row, col⟩ ∧
    ((b.save_state row col).undo).1 = true ∧
    (((b.save_state row col).undo).2).lines = b.lines ∧
    (∀ r2, b.lines.length ≤ r2 → b.delete_char r2 col = some b) := by
  have h1 : ¬(b.lines.length ≤ row) := Nat.not_le.mpr hrow
  have h2 : ¬(col < byteLen (((b.save_state row col).lines.get? row).getD [])) :=
    Nat.not_lt.mpr hcol
  refine ⟨?_, rfl, rfl, save_state_getLast b row col hmax, ?_, ?_, ?_⟩
  · simp only [TextBuffer.delete_char, h1, if_false, h2, if_neg]
  · rw [undo_of_getLast _ _ (save_state_getLast b row col hmax)]
  · rw [undo_of_getLast _ _ (save_state_getLast b row col hmax)]
  · intro r2 hr2
    simp [TextBuffer.delete_char, hr2]

/-- Claim C10, witness: the frame theorem applied to the one-line buffer
"ab" at row 0, column 5. -/
theorem C10_witness :
    TextBuffer.delete_char ⟨[['a','b']], none, [], [], 100⟩ 0 5 =
      some (TextBuffer.save_state ⟨[['a','b']], none, [], [], 100⟩ 0 5) ∧
    ((TextBuffer.save_state ⟨[['a','b']], none, [], [], 100⟩ 0 5).undo).1 = true ∧
    (((TextBuffer.save_state ⟨[['a','b']], none, [], [], 100⟩ 0 5).undo).2).lines =
      [['a','b']] := by
  have h := C10_delete_char_frame ⟨[['a','b']], none, [], [], 100⟩ 0 5
    (by decide) (by decide) (by decide)
  exact ⟨h.1, h.2.2.2.2.1, h.2.2.2.2.2.1⟩

/-- A snapshotting operation leaves a buffer whose redo stack is empty and
whose undo stack ends with a snapshot of the pre-operation lines. -/
theorem applyOp_saved (b : TextBuffer) (op : BufOp) (b' : TextBuffer)
    (h : applyOp b op = some b') (hs : recordsSnapshot b op)
    (hmax : 0 < b.max_undo_levels) :
    b'.redo_stack = [] ∧
    ∃ r0 c0, (b'.undo_stack).getLast? = some ⟨b.lines, r0, c0⟩ := by
  cases op with
  | insertChar r c ch =>
    simp only [applyOp, TextBuffer.insert_char, Option.map_eq_some'] at h
    obtain ⟨l, _, rfl⟩ := h
    exact ⟨rfl, r, c, save_state_getLast b r c hmax⟩
  | deleteChar r c =>
    have hr : ¬(b.lines.length ≤ r) := Nat.not_le.mpr hs
    simp only [applyOp, TextBuffer.delete_char, hr, if_false] at h
    by_cases hc : c < byteLen (((b.save_state r c).lines.get? r).getD [])
    · simp only [hc, if_true, Option.map_eq_some'] at h
      obtain ⟨l, _, rfl⟩ := h
      exact ⟨rfl, r, c, save_state_getLast b r c hmax⟩
    · simp only [hc, if_false, Option.some.injEq] at h
      subst h
      exact ⟨rfl, r, c, save_state_getLast b r c hmax⟩
  | insertNewline r c =>
    simp only [applyOp, TextBuffer.insert_newline] at h
    by_cases hr : (b.save_state r c).lines.length ≤ r
    · simp only [hr, if_true, Option.some.injEq] at h
      subst h
      exact ⟨rfl, r, c, save_state_getLast b r c hmax⟩
    · simp only [hr, if_false, Option.map_eq_some'] at h
      obtain ⟨p, _, rfl⟩ := h
      exact ⟨rfl, r, c, save_state_getLast b r c hmax⟩
  | deleteLine r =>
    have hr : ¬(b.lines.length ≤ r) := Nat.not_le.mpr hs
    simp only [applyOp, TextBuffer.delete_line, hr, if_false,
      Option.some.injEq] at h
    subst h
    exact ⟨rfl, r, 0, save_state_getLast b r 0 hmax⟩
  | joinLines r =>
    have hr : ¬(b.lines.length - 1 ≤ r) := Nat.not_le.mpr hs
    simp only [applyOp, TextBuffer.join_lines, hr, if_false,
      Option.some.injEq] at h
    subst h
    exact ⟨rfl, r, 0, save_state_getLast b r 0 hmax⟩
  | undoOp => exact absurd hs not_false
  | redoOp => exact absurd hs not_false

/-- Claim C3, amended.  For every buffer operation that records a snapshot
(insert_char and insert_newline always; delete_char, delete_line and
join_lines only when their row guard passes, since their out-of-range
early-return branches touch neither the document nor the history), an
immediately following undo() returns true and restores the pre-operation
lines byte for byte, and a redo() after that returns true and restores the
post-operation lines byte for byte. -/
theorem C3_undo_redo_roundtrip (b : TextBuffer) (op : BufOp) (b' : TextBuffer)
    (hmax : 0 < b.max_undo_levels)
    (h : applyOp b op = some b') (hs : recordsSnapshot b op) :
    ((b'.undo).1 = true) ∧
    (((b'.undo).2).lines = b.lines) ∧
    ((((b'.undo).2).redo).1 = true) ∧
    (((((b'.undo).2).redo).2).lines = b'.lines) := by
  obtain ⟨hredo, r0, c0, hu⟩ := applyOp_saved b op b' h hs hmax
  rw [undo_of_getLast _ _ hu]
  refine ⟨rfl, rfl, ?_, ?_⟩
  · rw [redo_of_getLast _ _ (List.getLast?_concat _)]
  · rw [redo_of_getLast _ _ (List.getLast?_concat _)]

/-- Claim C3, counterexample.  Starting from the fresh buffer, insert_char
produces the document "a" with one undo entry; the out-of-range operation
delete_char(5, 0) is a no-op that records nothing, and the undo() that
follows it restores the empty document of the EARLIER edit, not the lines
"a" that stood immediately before the delete_char call. -/
theorem C3_counterexample :
    ((TextBuffer.insert_char TextBuffer.new 0 0 'a').bind fun b1 =>
      (TextBuffer.delete_char b1 5 0).map fun b2 =>
        (((b2.undo).2).lines, b1.lines)) = some ([[]], [['a']]) ∧
    ([[]] : List RLine) ≠ [['a']] := by
  decide

/-- Claim C3, witness: the round-trip theorem applied to insert_char 'a'
on the fresh buffer. -/
theorem C3_witness :
    ∃ b', applyOp TextBuffer.new (BufOp.insertChar 0 0 'a') = some b' ∧
      ((b'.undo).1 = true) ∧ (((b'.undo).2).lines = [[]]) ∧
      ((((b'.undo).2).redo).1 = true) ∧
      (((((b'.undo).2).redo).2).lines = b'.lines) := by
  refine ⟨{ lines := [['a']], file_path := none,
            undo_stack := [⟨[[]], 0, 0⟩], redo_stack := [],
            max_undo_levels := 100 }, by decide, ?_⟩
  have h := C3_undo_redo_roundtrip TextBuffer.new (BufOp.insertChar 0 0 'a')
    { lines := [['a']], file_path := none, undo_stack := [⟨[[]], 0, 0⟩],
      redo_stack := [], max_undo_levels := 100 }
    (by decide) (by decide) trivial
  exact h

theorem save_state_cap (b : TextBuffer) (r c : Nat)
    (h : b.undo_stack.length ≤ b.max_undo_levels) :
    (b.save_state r c).undo_stack.length + (b.save_state r c).redo_stack.length ≤
      b.max_undo_levels := by
  have hrw : (b.save_state r c).undo_stack =
      if b.max_undo_levels <
          (b.undo_stack ++ [(⟨b.lines, r, c⟩ : BufferState)]).length
      then (b.undo_stack ++ [(⟨b.lines, r, c⟩ : BufferState)]).tail
      else b.undo_stack ++ [(⟨b.lines, r, c⟩ : BufferState)] := rfl
  rw [save_state_redo, hrw]
  have hlen : (b.undo_stack ++ [(⟨b.lines, r, c⟩ : BufferState)]).length =
      b.undo_stack.length + 1 := by simp
  split
  case isTrue h2 =>
    rw [hlen] at h2
    simp [List.length_tail, hlen]
    omega
  case isFalse h2 =>
    rw [hlen] at h2
    simp [hlen]
    omega

/-- One buffer operation keeps the capacity field and preserves the bound
on the combined size of the two history stacks. -/
theorem applyOp_cap (b : TextBuffer) (op : BufOp) (b' : TextBuffer)
    (h : applyOp b op = some b')
    (hinv : b.undo_stack.length + b.redo_stack.length ≤ b.max_undo_levels) :
    b'.max_undo_levels = b.max_undo_levels ∧
    b'.undo_stack.length + b'.redo_stack.length ≤ b.max_undo_levels := by
  have hu : b.undo_stack.length ≤ b.max_undo_levels := by omega
  cases op with
  | insertChar r c ch =>
    simp only [applyOp, TextBuffer.insert_char, Option.map_eq_some'] at h
    obtain ⟨l, _, rfl⟩ := h
    exact ⟨rfl, save_state_cap b r c hu⟩
  | deleteChar r c =>
    simp only [applyOp, TextBuffer.delete_char] at h
    by_cases hr : b.lines.length ≤ r
    · simp only [hr, if_true, Option.some.injEq] at h
      subst h
      exact ⟨rfl, hinv⟩
    · simp only [hr, if_false] at h
      by_cases hc : c < byteLen (((b.save_state r c).lines.get? r).getD [])
      · simp only [hc, if_true, Option.map_eq_some'] at h
        obtain ⟨l, _, rfl⟩ := h
        exact ⟨rfl, save_state_cap b r c hu⟩
      · simp only [hc, if_false, Option.some.injEq] at h
        subst h
        exact ⟨rfl, save_state_cap b r c hu⟩
  | insertNewline r c =>
    simp only [applyOp, TextBuffer.insert_newline] at h
    by_cases hr : (b.save_state r c).lines.length ≤ r
    · simp only [hr, if_true, Option.some.injEq] at h
      subst h
      exact ⟨rfl, save_state_cap b r c hu⟩
    · simp only [hr, if_false, Option.map_eq_some'] at h
      obtain ⟨p, _, rfl⟩ := h
      exact ⟨rfl, save_state_cap b r c hu⟩
  | deleteLine r =>
    simp only [applyOp, TextBuffer.delete_line] at h
    by_cases hr : b.lines.length ≤ r
    · simp only [hr, if_true, Option.some.injEq] at h
      subst h
      exact ⟨rfl, hinv⟩
    · simp only [hr, if_false, Option.some.injEq] at h
      subst h
      exact ⟨rfl, save_state_cap b r 0 hu⟩
  | joinLines r =>
    simp only [applyOp, TextBuffer.join_lines] at h
    by_cases hr : b.lines.length - 1 ≤ r
    · simp only [hr, if_true, Option.some.injEq] at h
      subst h
      exact ⟨rfl, hinv⟩
    · simp only [hr, if_false, Option.some.injEq] at h
      subst h
      exact ⟨rfl, save_state_cap b r 0 hu⟩
  | undoOp =>
    simp only [applyOp, Option.some.injEq] at h
    subst h
    unfold TextBuffer.undo
    cases hl : b.undo_stack.getLast? with
    | none => exact ⟨rfl, hinv⟩
    | some st =>
      have hne : b.undo_stack ≠ [] := by
        intro he
        rw [he] at hl
        simp at hl
      have : 0 < b.undo_stack.length := List.length_pos.mpr hne
      refine ⟨rfl, ?_⟩
      simp [List.length_dropLast]
      omega
  | redoOp =>
    simp only [applyOp, Option.some.injEq] at h
    subst h
    unfold TextBuffer.redo
    cases hl : b.redo_stack.getLast? with
    | none => exact ⟨rfl, hinv⟩
    | some st =>
      have hne : b.redo_stack ≠ [] := by
        intro he
        rw [he] at hl
        simp at hl
      have : 0 < b.redo_stack.length := List.length_pos.mpr hne
      refine ⟨rfl, ?_⟩
      simp [List.length_dropLast]
      omega

theorem applyOps_cap (ops : List BufOp) : ∀ (b0 b : TextBuffer),
    applyOps b0 ops = some b →
    b0.undo_stack.length + b0.redo_stack.length ≤ b0.max_undo_levels →
    b.max_undo_levels = b0.max_undo_levels ∧
    b.undo_stack.length + b.redo_stack.length ≤ b0.max_undo_levels := by
  induction ops with
  | nil =>
    intro b0 b h hinv
    simp only [applyOps, Option.some.injEq] at h
    subst h
    exact ⟨rfl, hinv⟩
  | cons op ops ih =>
    intro b0 b h hinv
    simp only [applyOps, Option.bind_eq_some] at h
    obtain ⟨b1, h1, h2⟩ := h
    obtain ⟨hm, hc⟩ := applyOp_cap b0 op b1 h1 hinv
    obtain ⟨hm2, hc2⟩ := ih b1 b h2 (by omega)
    exact ⟨by omega, by omega⟩

/-- Claim C8: across every sequence of buffer operations (edits, undo,
redo) started from a buffer within capacity 100, the undo stack never
exceeds 100 entries; and recording a snapshot while the stack holds exactly
100 entries evicts the oldest (front) entry. -/
theorem C8_undo_stack_cap :
    (∀ (ops : List BufOp) (b0 b : TextBuffer),
      b0.max_undo_levels = 100 →
      b0.undo_stack.length + b0.redo_stack.length ≤ 100 →
      applyOps b0 ops = some b →
      b.undo_stack.length ≤ 100) ∧
    (∀ (b : TextBuffer) (r c : Nat),
      b.max_undo_levels = 100 →
      b.undo_stack.length = 100 →
      (b.save_state r c).undo_stack =
        b.undo_stack.tail ++ [⟨b.lines, r, c⟩]) := by
  constructor
  · intro ops b0 b hm hinv h
    have := applyOps_cap ops b0 b h (by omega)
    omega
  · intro b r c hm hlen
    have hrw : (b.save_state r c).undo_stack =
        if b.max_undo_levels <
            (b.undo_stack ++ [(⟨b.lines, r, c⟩ : BufferState)]).length
        then (b.undo_stack ++ [(⟨b.lines, r, c⟩ : BufferState)]).tail
        else b.undo_stack ++ [(⟨b.lines, r, c⟩ : BufferState)] := rfl
    rw [hrw, if_pos (by simp; omega)]
    cases hu : b.undo_stack with
    | nil =>
      rw [hu] at hlen
      simp at hlen
    | cons x xs => rfl

/-- Claim C8, witness: a 100-deep undo stack stays at 100 entries across an
insert_char, and the snapshot evicts the oldest entry. -/
theorem C8_witness :
    (∀ b, applyOps
        { lines := [[]], file_path := none,
          undo_stack := List.replicate 100 ⟨[[]], 0, 0⟩, redo_stack := [],
          max_undo_levels := 100 }
        [BufOp.insertChar 0 0 'a'] = some b →
      b.undo_stack.length ≤ 100) ∧
    (TextBuffer.save_state
        { lines := [['b']], file_path := none,
          undo_stack := List.replicate 100 ⟨[[]], 0, 0⟩, redo_stack := [],
          max_undo_levels := 100 } 0 0).undo_stack =
      (List.replicate 100 (⟨[[]], 0, 0⟩ : BufferState)).tail ++ [⟨[['b']], 0, 0⟩] := by
  constructor
  · intro b h
    exact C8_undo_stack_cap.1 [BufOp.insertChar 0 0 'a'] _ b rfl (by simp) h
  · exact C8_undo_stack_cap.2 _ 0 0 rfl (by simp)

theorem utf8Len_pos (c : Char) : 0 < utf8Len c := by
  unfold utf8Len
  split
  · omega
  split
  · omega
  split
  · omega
  · omega

theorem byteLen_cons (c : Char) (cs : RLine) :
    byteLen (c :: cs) = utf8Len c + byteLen cs := by
  simp [byteLen]

theorem charIdx_lt_length :
    ∀ (l : RLine) (i k : Nat), charIdxAtByte l i = some k →
      i < byteLen l → k < l.length := by
  intro l
  induction l with
  | nil =>
    intro i k h hi
    simp [byteLen] at hi
  | cons c cs ih =>
    intro i k h hi
    cases i with
    | zero =>
      simp only [charIdxAtByte, Option.some.injEq] at h
      subst h
      simp
    | succ j =>
      simp only [charIdxAtByte] at h
      split at h
      case isTrue hle =>
        simp only [Option.map_eq_some'] at h
        obtain ⟨k2, hk2, rfl⟩ := h
        rw [byteLen_cons] at hi
        have hlt : j + 1 - utf8Len c < byteLen cs := by omega
        have := ih _ _ hk2 hlt
        simp
        omega
      case isFalse hle => exact absurd h (by simp)

theorem stringInsert_isSome (l : RLine) (i : Nat) (ch : Char) :
    (stringInsert l i ch).isSome = (charIdxAtByte l i).isSome := by
  simp [stringInsert]

theorem stringSplitAt_isSome (l : RLine) (i : Nat) :
    (stringSplitAt l i).isSome = (charIdxAtByte l i).isSome := by
  simp [stringSplitAt]

theorem insert_char_padded_line (b : TextBuffer) (row : Nat) :
    ((if b.lines.length ≤ row
      then b.lines ++ List.replicate (row + 1 - b.lines.length) []
      else b.lines).get? row).getD [] = b.get_line row := by
  split
  case isTrue hr =>
    rw [List.get?_append_right hr, TextBuffer.get_line,
      List.get?_eq_none.mpr hr]
    have h2 : row - b.lines.length < row + 1 - b.lines.length := by omega
    simp [List.get?_eq_getElem?, List.getElem?_replicate, h2]
  case isFalse hr => rfl

/-- Claim C1, amended.  Each editing operation completes (returns rather
than panicking) whenever the clamped byte column falls on a UTF-8 char
boundary of the affected line, which always holds for out-of-range inputs
and for ASCII lines; out-of-range rows take the documented no-op or padding
branches, and delete_line and join_lines are total.  (Off a char boundary
inside a multi-byte char the byte-indexed String operations panic; see the
counterexample.) -/
theorem C1_no_panic (b : TextBuffer) (row col : Nat) (ch : Char) :
    ((charIdxAtByte (b.get_line row)
        (min col (byteLen (b.get_line row)))).isSome →
      (b.insert_char row col ch).isSome ∧ (b.insert_newline row col).isSome) ∧
    ((col < byteLen (b.get_line row) →
        (charIdxAtByte (b.get_line row) col).isSome) →
      (b.delete_char row col).isSome) ∧
    (b.lines.length ≤ row →
      b.delete_char row col = some b ∧
      b.delete_line row = b ∧
      ∃ b', b.insert_char row col ch = some b' ∧
        b'.lines.length = row + 1) ∧
    (b.lines.length - 1 ≤ row → b.join_lines row = b) := by
  refine ⟨?_, ?_, ?_, ?_⟩
  · intro hb
    constructor
    · simp only [TextBuffer.insert_char, save_state_lines,
        Option.isSome_map', insert_char_padded_line, stringInsert_isSome]
      exact hb
    · simp only [TextBuffer.insert_newline, save_state_lines]
      split
      · simp
      · simpa [Option.isSome_map', stringSplitAt_isSome,
          TextBuffer.get_line] using hb
  · intro hb
    by_cases hr : b.lines.length ≤ row
    · simp [TextBuffer.delete_char, hr]
    · have hgl : (b.lines.get? row).getD [] = b.get_line row := rfl
      simp only [TextBuffer.delete_char, hr, if_false, save_state_lines, hgl]
      by_cases hc : col < byteLen (b.get_line row)
      · obtain ⟨k, hk⟩ := Option.isSome_iff_exists.mp (hb hc)
        have hkl : k < (b.get_line row).length :=
          charIdx_lt_length _ _ _ hk hc
        rw [if_pos hc]
        simp only [stringRemove, hk, hkl, if_pos, Option.isSome_map']
        rfl
      · rw [if_neg hc]
        rfl
  · intro hr
    refine ⟨by simp [TextBuffer.delete_char, hr],
      by simp [TextBuffer.delete_line, hr], ?_⟩
    simp only [TextBuffer.insert_char, save_state_lines, hr, if_true]
    rw [List.get?_append_right hr]
    have h2 : row - b.lines.length < row + 1 - b.lines.length := by omega
    simp [List.get?_eq_getElem?, List.getElem?_replicate, h2, byteLen,
      stringInsert, charIdxAtByte]
    omega
  · intro hr
    simp [TextBuffer.join_lines, hr]

/-- Claim C1, counterexample.  On the single-line document "é" (one
two-byte char), byte column 1 is in range (the line's byte length is 2) but
not a char boundary: insert_char, insert_newline and delete_char all panic
there (Rust String::insert / str::split_at / String::remove), refuting the
claim that every row/column input completes without error on multi-byte
documents. -/
theorem C1_counterexample :
    TextBuffer.insert_char ⟨[['é']], none, [], [], 100⟩ 0 1 'x' = none ∧
    TextBuffer.insert_newline ⟨[['é']], none, [], [], 100⟩ 0 1 = none ∧
    TextBuffer.delete_char ⟨[['é']], none, [], [], 100⟩ 0 1 = none ∧
    TextBuffer.get_line_length ⟨[['é']], none, [], [], 100⟩ 0 = 2 := by
  decide

/-- Claim C1, witness: the amended theorem applied at in-range and
out-of-range concrete inputs. -/
theorem C1_witness :
    (TextBuffer.new.insert_char 0 0 'a').isSome ∧
    (TextBuffer.new.insert_newline 0 0).isSome ∧
    (TextBuffer.new.delete_char 0 0).isSome ∧
    TextBuffer.delete_char ⟨[['a']], none, [], [], 100⟩ 7 0 =
      some ⟨[['a']], none, [], [], 100⟩ ∧
    TextBuffer.join_lines ⟨[['a']], none, [], [], 100⟩ 5 =
      ⟨[['a']], none, [], [], 100⟩ := by
  refine ⟨((C1_no_panic TextBuffer.new 0 0 'a').1 (by decide)).1,
    ((C1_no_panic TextBuffer.new 0 0 'a').1 (by decide)).2,
    (C1_no_panic TextBuffer.new 0 0 'a').2.1 (by decide),
    ((C1_no_panic ⟨[['a']], none, [], [], 100⟩ 7 0 'a').2.2.1 (by decide)).1,
    (C1_no_panic ⟨[['a']], none, [], [], 100⟩ 5 0 'a').2.2.2 (by decide)⟩

/-- Claim C9, amended.  For every in-range row and every byte column with
col ≤ lineLength(row) that falls on a char boundary of that line (always
true on ASCII lines), insert_newline(row, col) followed by join_lines(row)
restores the document's lines exactly; on a non-boundary column the split
panics instead (see the counterexample). -/
theorem C9_split_join_roundtrip (b : TextBuffer) (row col : Nat)
    (hrow : row < b.lines.length)
    (hcol : col ≤ byteLen (b.get_line row))
    (hb : (charIdxAtByte (b.get_line row) col).isSome) :
    ∃ b1, b.insert_newline row col = some b1 ∧
      (b1.join_lines row).lines = b.lines := by
  obtain ⟨k, hk⟩ := Option.isSome_iff_exists.mp hb
  have hr2 : ¬((b.save_state row col).lines.length ≤ row) := Nat.not_le.mpr hrow
  have hgl : ((b.save_state row col).lines.get? row).getD [] = b.get_line row := rfl
  have hmin : min col (byteLen (b.get_line row)) = col := Nat.min_eq_left hcol
  have hsplit : stringSplitAt (b.get_line row) col =
      some ((b.get_line row).take k, (b.get_line row).drop k) := by
    simp [stringSplitAt, hk]
  have hlen : row + 1 ≤ (b.lines.set row ((b.get_line row).take k)).length := by
    simp
    omega
  have hLlen :
      ((b.lines.set row ((b.get_line row).take k)).insertIdx (row + 1)
        ((b.get_line row).drop k)).length = b.lines.length + 1 := by
    rw [List.length_insertIdx _ _ hlen]
    simp
  have hguard : ¬(((b.lines.set row ((b.get_line row).take k)).insertIdx
      (row + 1) ((b.get_line row).drop k)).length - 1 ≤ row) := by
    rw [hLlen]
    omega
  have hget : ((b.lines.set row ((b.get_line row).take k)).insertIdx
      (row + 1) ((b.get_line row).drop k)).get? (row + 1) =
      some ((b.get_line row).drop k) := by
    have h1 : row + 1 <
        ((b.lines.set row ((b.get_line row).take k)).insertIdx (row + 1)
          ((b.get_line row).drop k)).length := by
      rw [hLlen]
      omega
    rw [List.get?_eq_getElem?, List.getElem?_eq_getElem h1,
      List.getElem_insertIdx_self _ _ _ hlen]
  have herase : ((b.lines.set row ((b.get_line row).take k)).insertIdx
      (row + 1) ((b.get_line row).drop k)).eraseIdx (row + 1) =
      b.lines.set row ((b.get_line row).take k) :=
    List.eraseIdx_insertIdx (row + 1) _
  have hsetget : ((b.lines.set row ((b.get_line row).take k)).get? row).getD [] =
      (b.get_line row).take k := by
    rw [List.get?_set_eq_of_lt _ (by simpa using hrow)]
    rfl
  have hrowline : b.lines[row] = b.get_line row := by
    simp [TextBuffer.get_line, List.get?_eq_getElem?,
      List.getElem?_eq_getElem hrow]
  have h1 : b.insert_newline row col =
      some { b.save_state row col with
        lines := (b.lines.set row ((b.get_line row).take k)).insertIdx
          (row + 1) ((b.get_line row).drop k) } := by
    simp only [TextBuffer.insert_newline, hr2, if_false, hgl, hmin, hsplit,
      Option.map_some']
    rfl
  have h2 : ∀ b2 : TextBuffer,
      b2.lines = (b.lines.set row ((b.get_line row).take k)).insertIdx
        (row + 1) ((b.get_line row).drop k) →
      (b2.join_lines row).lines = b.lines := by
    intro b2 hl2
    simp only [TextBuffer.join_lines, save_state_lines, hl2, hguard, if_false]
    rw [hget]
    simp only [Option.getD_some]
    rw [herase, hsetget, List.set_set, List.take_append_drop,
      ← hrowline, listSet_getElem_self _ _ hrow]
  exact ⟨_, h1, h2 _ rfl⟩

/-- Claim C9, counterexample.  On the single-line document "é" the column 1
satisfies 0 ≤ 1 ≤ lineLength(0) = 2, yet insert_newline(0, 1) panics on the
non-boundary byte split instead of producing a document that join_lines
could restore. -/
theorem C9_counterexample :
    TextBuffer.insert_newline ⟨[['é']], none, [], [], 100⟩ 0 1 = none ∧
    1 ≤ TextBuffer.get_line_length ⟨[['é']], none, [], [], 100⟩ 0 := by
  decide

/-- Claim C9, witness: the round trip applied on the document "ab" at
row 0, column 1. -/
theorem C9_witness :
    ∃ b1, TextBuffer.insert_newline ⟨[['a','b']], none, [], [], 100⟩ 0 1 =
        some b1 ∧
      (b1.join_lines 0).lines = [['a','b']] :=
  C9_split_join_roundtrip ⟨[['a','b']], none, [], [], 100⟩ 0 1
    (by decide) (by decide) (by decide)

/-- Claim C2: the session controller never calls clamp_to_buffer, and undo
restores a shorter document while leaving the cursor untouched.  From a
fresh editor, the reachable key sequence o (open line below, enter Insert),
Esc, Ctrl+Z (undo) ends with a one-line buffer but the cursor still on
row 1, so after the undo dispatch the cursor row is NOT below the line
count, refuting the claimed invariant. -/
theorem C2_cursor_not_clamped :
    ((EditorState.new.handle_key_event ⟨KeyCode.char 'o', false⟩ 0).bind fun e1 =>
      (e1.handle_key_event ⟨KeyCode.esc, false⟩ 600).bind fun e2 =>
        e2.handle_key_event ⟨KeyCode.char 'z', true⟩ 1200).map
      (fun e => (e.cursor.row, e.buffer.line_count,
        decide (e.cursor.row < e.buffer.line_count))) = some (1, 1, false) := by
  decide

/-- Claim C4, counterexample.  From a fresh editor: i (Insert mode), x
(makes the buffer dirty), then two Ctrl+Q presses 100 ms apart.  The second
Ctrl+Q has the matching key code and is inside the 500 ms chord window, yet
the quit flag stays false: in Insert mode a dirty buffer can never be quit
with the Ctrl+Q double press. -/
theorem C4_counterexample :
    ((EditorState.new.handle_key_event ⟨KeyCode.char 'i', false⟩ 0).bind fun e1 =>
      (e1.handle_key_event ⟨KeyCode.char 'x', false⟩ 600).bind fun e2 =>
        (e2.handle_key_event ⟨KeyCode.char 'q', true⟩ 1200).bind fun e3 =>
          e3.handle_key_event ⟨KeyCode.char 'q', true⟩ 1300).map
      (fun e => (e.should_quit, e.is_dirty, e.mode)) =
      some (false, true, EditorMode.insert) := by
  decide

/-- Claim C4, amended.  In Navigation mode the claimed behaviour holds: a
clean buffer quits on one Ctrl+Q; a dirty buffer gets the warning message
and quits only when the previous key has the matching code and arrived
within 500 ms.  In Insert mode a clean buffer quits on one Ctrl+Q, but a
dirty buffer only ever gets the warning message — no second Ctrl+Q sets
the quit flag. -/
theorem C4_quit_behaviour (s : EditorState) (now : Nat)
    (hq : s.should_quit = false) :
    (s.mode = EditorMode.navigation → s.is_dirty = false →
      (s.handle_key_event ⟨KeyCode.char 'q', true⟩ now).map
        (fun e => e.should_quit) = some true) ∧
    (s.mode = EditorMode.navigation → s.is_dirty = true →
      (∀ lk, s.last_key = some lk → lk.code = KeyCode.char 'q' →
        500 ≤ now - s.last_key_time) →
      (s.handle_key_event ⟨KeyCode.char 'q', true⟩ now).map
        (fun e => (e.should_quit, e.status_message)) =
        some (false, "File has unsaved changes. Press Ctrl+Q again to quit without saving, or Ctrl+S to save first")) ∧
    (s.mode = EditorMode.navigation → s.is_dirty = true →
      ∀ lk, s.last_key = some lk → lk.code = KeyCode.char 'q' →
        now - s.last_key_time < 500 →
      (s.handle_key_event ⟨KeyCode.char 'q', true⟩ now).map
        (fun e => e.should_quit) = some true) ∧
    (s.mode = EditorMode.insert → s.is_dirty = false →
      (s.handle_key_event ⟨KeyCode.char 'q', true⟩ now).map
        (fun e => e.should_quit) = some true) ∧
    (s.mode = EditorMode.insert → s.is_dirty = true →
      (s.handle_key_event ⟨KeyCode.char 'q', true⟩ now).map
        (fun e => (e.should_quit, e.status_message)) =
        some (false, "File has unsaved changes. Save first with Ctrl+S")) := by
  refine ⟨?_, ?_, ?_, ?_, ?_⟩
  · intro hm hd
    simp [EditorState.handle_key_event, hm,
      EditorState.handle_navigation_key, hd]
  · intro hm hd hlk
    cases hl : s.last_key with
    | none =>
      simp [EditorState.handle_key_event, hm, hl,
        EditorState.handle_navigation_key, hd, hq]
    | some lk =>
      by_cases hc : lk.code = KeyCode.char 'q'
      · have h5 : ¬(now - s.last_key_time < 500) :=
          Nat.not_lt.mpr (hlk lk hl hc)
        simp [EditorState.handle_key_event, hm, hl,
          EditorState.handle_navigation_key, hd, h5, hq]
      · simp [EditorState.handle_key_event, hm, hl,
          EditorState.handle_navigation_key, hd, hc, hq]
  · intro hm hd lk hl hc h5
    simp [EditorState.handle_key_event, hm, hl,
      EditorState.handle_navigation_key, hd, hc, h5]
  · intro hm hd
    simp [EditorState.handle_key_event, hm,
      EditorState.handle_insert_key, hd]
  · intro hm hd
    simp [EditorState.handle_key_event, hm,
      EditorState.handle_insert_key, hd, hq]

/-- Claim C4, witness: a clean Navigation-mode editor quits on one Ctrl+Q;
a dirty Insert-mode editor does not quit and gets the Insert-mode warning. -/
theorem C4_witness :
    (EditorState.new.handle_key_event ⟨KeyCode.char 'q', true⟩ 0).map
      (fun e => e.should_quit) = some true ∧
    (({ EditorState.new with
        mode := EditorMode.insert, is_dirty := true } : EditorState).handle_key_event
        ⟨KeyCode.char 'q', true⟩ 0).map
      (fun e => (e.should_quit, e.status_message)) =
      some (false, "File has unsaved changes. Save first with Ctrl+S") :=
  ⟨(C4_quit_behaviour EditorState.new 0 rfl).1 rfl rfl,
    (C4_quit_behaviour { EditorState.new with
      mode := EditorMode.insert, is_dirty := true } 0 rfl).2.2.2.2 rfl rfl⟩

/-- Claim C5, counterexample.  From a fresh editor: i (Insert mode), a
(document becomes "a" with one undo entry), then Ctrl+Z.  Instead of
undoing (which would restore the empty document), the Ctrl+Z event falls
into the printable-character arm and inserts a literal z: the document
becomes "az". -/
theorem C5_counterexample :
    ((EditorState.new.handle_key_event ⟨KeyCode.char 'i', false⟩ 0).bind fun e1 =>
      (e1.handle_key_event ⟨KeyCode.char 'a', false⟩ 600).bind fun e2 =>
        e2.handle_key_event ⟨KeyCode.char 'z', true⟩ 1200).map
      (fun e => e.buffer.lines) = some [['a', 'z']] ∧
    ([['a', 'z']] : List RLine) ≠ [[]] ∧
    ([['a', 'z']] : List RLine) ≠ [['a']] := by
  decide

/-- Claim C5, amended.  In Navigation mode Ctrl+Z, Ctrl+Y, Ctrl+T and F3
perform undo, redo, the typewriter toggle and the distraction-free toggle.
In Insert mode only Ctrl+S and Ctrl+Q are intercepted: Ctrl+Z, Ctrl+Y and
Ctrl+T fall through to the printable-character arm and insert the literal
letters z, y, t, and F3 does nothing. -/
theorem C5_insert_mode_ctrl_keys (s : EditorState) (now : Nat) :
    (s.mode = EditorMode.navigation →
      (s.handle_key_event ⟨KeyCode.char 'z', true⟩ now =
        some { s.undo with
               last_key := some ⟨KeyCode.char 'z', true⟩, last_key_time := now }) ∧
      (s.handle_key_event ⟨KeyCode.char 'y', true⟩ now =
        some { s.redo with
               last_key := some ⟨KeyCode.char 'y', true⟩, last_key_time := now }) ∧
      (s.handle_key_event ⟨KeyCode.char 't', true⟩ now =
        some { s.toggle_typewriter_mode with
               last_key := some ⟨KeyCode.char 't', true⟩,
               last_key_time := now }) ∧
      (s.handle_key_event ⟨KeyCode.fkey 3, false⟩ now =
        some { s.toggle_distraction_free with
               last_key := some ⟨KeyCode.fkey 3, false⟩,
               last_key_time := now })) ∧
    (s.mode = EditorMode.insert →
      (s.handle_key_event ⟨KeyCode.char 'z', true⟩ now =
        (s.insert_char 'z').map fun s1 =>
          { s1 with
            last_key := some ⟨KeyCode.char 'z', true⟩, last_key_time := now }) ∧
      (s.handle_key_event ⟨KeyCode.char 'y', true⟩ now =
        (s.insert_char 'y').map fun s1 =>
          { s1 with
            last_key := some ⟨KeyCode.char 'y', true⟩, last_key_time := now }) ∧
      (s.handle_key_event ⟨KeyCode.char 't', true⟩ now =
        (s.insert_char 't').map fun s1 =>
          { s1 with
            last_key := some ⟨KeyCode.char 't', true⟩, last_key_time := now }) ∧
      (s.handle_key_event ⟨KeyCode.fkey 3, false⟩ now =
        some { s with
               last_key := some ⟨KeyCode.fkey 3, false⟩, last_key_time := now })) := by
  constructor
  · intro hm
    refine ⟨?_, ?_, ?_, ?_⟩ <;>
      simp [EditorState.handle_key_event, hm,
        EditorState.handle_navigation_key]
  · intro hm
    refine ⟨?_, ?_, ?_, ?_⟩ <;>
      simp [EditorState.handle_key_event, hm,
        EditorState.handle_insert_key]

/-- Claim C5, witness: the amended theorem applied to the fresh editor
(Navigation mode) for Ctrl+Z. -/
theorem C5_witness :
    EditorState.new.handle_key_event ⟨KeyCode.char 'z', true⟩ 0 =
      some { EditorState.new.undo with
             last_key := some ⟨KeyCode.char 'z', true⟩, last_key_time := 0 } :=
  ((C5_insert_mode_ctrl_keys EditorState.new 0).1 rfl).1

section WordScan

theorem skipWhileFwd_eq_step (p : Char → Bool) (chars : List Char) (pos : Nat)
    (h : pos < chars.length) (hp : p (chars.get ⟨pos, h⟩) = true) :
    skipWhileFwd p chars pos = skipWhileFwd p chars (pos + 1) := by
  rw [skipWhileFwd]
  rw [dif_pos h, if_pos hp]

theorem skipWhileFwd_eq_stop (p : Char → Bool) (chars : List Char) (pos : Nat)
    (h : pos < chars.length) (hp : p (chars.get ⟨pos, h⟩) = false) :
    skipWhileFwd p chars pos = pos := by
  rw [skipWhileFwd]
  rw [dif_pos h, if_neg (by simp; exact hp)]

theorem skipWhileFwd_eq_end (p : Char → Bool) (chars : List Char) (pos : Nat)
    (h : ¬pos < chars.length) :
    skipWhileFwd p chars pos = pos := by
  rw [skipWhileFwd]
  rw [dif_neg h]

theorem skipWhileFwd_ge (p : Char → Bool) (chars : List Char) (pos : Nat) :
    pos ≤ skipWhileFwd p chars pos := by
  by_cases h : pos < chars.length
  · by_cases hp : p (chars.get ⟨pos, h⟩) = true
    · rw [skipWhileFwd_eq_step p chars pos h hp]
      have := skipWhileFwd_ge p chars (pos + 1)
      omega
    · rw [skipWhileFwd_eq_stop p chars pos h
        (Bool.eq_false_iff.mpr (fun he => hp he))]
  · rw [skipWhileFwd_eq_end p chars pos h]
termination_by chars.length - pos
decreasing_by omega

theorem skipWhileFwd_le (p : Char → Bool) (chars : List Char) (pos : Nat)
    (hle : pos ≤ chars.length) : skipWhileFwd p chars pos ≤ chars.length := by
  by_cases h : pos < chars.length
  · by_cases hp : p (chars.get ⟨pos, h⟩) = true
    · rw [skipWhileFwd_eq_step p chars pos h hp]
      exact skipWhileFwd_le p chars (pos + 1) h
    · rw [skipWhileFwd_eq_stop p chars pos h
        (Bool.eq_false_iff.mpr (fun he => hp he))]
      exact hle
  · rw [skipWhileFwd_eq_end p chars pos h]
    exact hle
termination_by chars.length - pos
decreasing_by omega

theorem skipWhileFwd_interval (p : Char → Bool) (chars : List Char)
    (pos i : Nat) (h1 : pos ≤ i) (h2 : i < skipWhileFwd p chars pos) :
    ∃ c, chars.get? i = some c ∧ p c = true := by
  by_cases h : pos < chars.length
  · by_cases hp : p (chars.get ⟨pos, h⟩) = true
    · rcases Nat.eq_or_lt_of_le h1 with heq | hlt
      · subst heq
        exact ⟨chars.get ⟨pos, h⟩,
          by rw [List.get?_eq_getElem?, List.getElem?_eq_getElem h]; rfl, hp⟩
      · rw [skipWhileFwd_eq_step p chars pos h hp] at h2
        exact skipWhileFwd_interval p chars (pos + 1) i hlt h2
    · rw [skipWhileFwd_eq_stop p chars pos h
        (Bool.eq_false_iff.mpr (fun he => hp he))] at h2
      omega
  · rw [skipWhileFwd_eq_end p chars pos h] at h2
    omega
termination_by chars.length - pos
decreasing_by omega

theorem skipBackWhile_le (p : Char → Bool) (chars : List Char) :
    ∀ pos r, skipBackWhile p chars pos = some r → r ≤ pos := by
  intro pos
  induction pos with
  | zero =>
    intro r h
    simp only [skipBackWhile, Option.some.injEq] at h
    omega
  | succ pos ih =>
    intro r h
    simp only [skipBackWhile] at h
    cases hg : chars.get? (pos + 1) with
    | none => rw [hg] at h; exact absurd h (by simp)
    | some c =>
      simp only [hg] at h
      by_cases hp : p c = true
      · rw [if_pos hp] at h
        have := ih r h
        omega
      · rw [if_neg hp] at h
        simp only [Option.some.injEq] at h
        omega

theorem skipBackWhile_isSome (p : Char → Bool) (chars : List Char) :
    ∀ pos, pos < chars.length → ∃ r, skipBackWhile p chars pos = some r := by
  intro pos
  induction pos with
  | zero => exact fun _ => ⟨0, rfl⟩
  | succ pos ih =>
    intro hlt
    have hg : chars.get? (pos + 1) = some (chars.get ⟨pos + 1, hlt⟩) := by
      rw [List.get?_eq_getElem?, List.getElem?_eq_getElem hlt]; rfl
    by_cases hp : p (chars.get ⟨pos + 1, hlt⟩) = true
    · obtain ⟨r, hr⟩ := ih (by omega)
      exact ⟨r, by simp only [skipBackWhile, hg, hp, if_true]; exact hr⟩
    · exact ⟨pos + 1, by
        simp only [skipBackWhile, hg]
        rw [if_neg hp]⟩

theorem skipBackWhile_stop (p : Char → Bool) (chars : List Char) :
    ∀ pos r, skipBackWhile p chars pos = some r →
      r = 0 ∨ ∃ c, chars.get? r = some c ∧ p c = false := by
  intro pos
  induction pos with
  | zero =>
    intro r h
    simp only [skipBackWhile, Option.some.injEq] at h
    exact Or.inl h.symm
  | succ pos ih =>
    intro r h
    simp only [skipBackWhile] at h
    cases hg : chars.get? (pos + 1) with
    | none => rw [hg] at h; exact absurd h (by simp)
    | some c =>
      simp only [hg] at h
      by_cases hp : p c = true
      · rw [if_pos hp] at h
        exact ih r h
      · rw [if_neg hp] at h
        simp only [Option.some.injEq] at h
        subst h
        exact Or.inr ⟨c, hg, Bool.eq_false_iff.mpr (fun he => hp he)⟩

theorem skipBackWhile_interval (p : Char → Bool) (chars : List Char) :
    ∀ pos r, skipBackWhile p chars pos = some r →
      ∀ i, r < i → i ≤ pos → ∃ c, chars.get? i = some c ∧ p c = true := by
  intro pos
  induction pos with
  | zero =>
    intro r h i h1 h2
    omega
  | succ pos ih =>
    intro r h i h1 h2
    simp only [skipBackWhile] at h
    cases hg : chars.get? (pos + 1) with
    | none => rw [hg] at h; exact absurd h (by simp)
    | some c =>
      simp only [hg] at h
      by_cases hp : p c = true
      · rw [if_pos hp] at h
        rcases Nat.eq_or_lt_of_le h2 with heq | hlt
        · subst heq
          exact ⟨c, hg, hp⟩
        · exact ih r h i h1 (by omega)
      · rw [if_neg hp] at h
        simp only [Option.some.injEq] at h
        omega

end WordScan

/-- A line all of whose chars are single-byte in UTF-8 (ASCII), so that the
byte column positions of the source coincide with char indices. -/
def asciiLine (l : RLine) : Prop := ∀ c ∈ l, utf8Len c = 1

instance (l : RLine) : Decidable (asciiLine l) :=
  inferInstanceAs (Decidable (∀ c ∈ l, utf8Len c = 1))

theorem byteLen_ascii (l : RLine) (h : asciiLine l) : byteLen l = l.length := by
  induction l with
  | nil => rfl
  | cons c cs ih =>
    rw [byteLen_cons, h c (by simp), ih (fun x hx => h x (by simp [hx]))]
    simp [Nat.add_comm]

/-- Within one line: scanning forward from `col` (skip the word, then the
whitespace) reaches a position `q` strictly beyond `col`; scanning backward
from `q - 1` as move_word_left does always succeeds and, unless it stops at
0, stops on a whitespace char strictly BELOW `col`, so the final
move_word_left column is at most `col`. -/
theorem word_back_le (chars : List Char) (col : Nat)
    (hcol : col < chars.length) :
    col < skipWhileFwd rustIsWhitespace chars
      (skipWhileFwd (fun c => !rustIsWhitespace c) chars col) ∧
    skipWhileFwd rustIsWhitespace chars
      (skipWhileFwd (fun c => !rustIsWhitespace c) chars col) ≤ chars.length ∧
    ∃ p1 p2,
      skipBackWhile rustIsWhitespace chars
        (skipWhileFwd rustIsWhitespace chars
          (skipWhileFwd (fun c => !rustIsWhitespace c) chars col) - 1) =
        some p1 ∧
      skipBackWhile (fun c => !rustIsWhitespace c) chars p1 = some p2 ∧
      p2 ≤ p1 ∧
      p1 < chars.length ∧
      (p2 = 0 ∨
        (∃ c, chars.get? p2 = some c ∧ rustIsWhitespace c = true ∧ p2 < col)) := by
  have ha1 : col ≤ skipWhileFwd (fun c => !rustIsWhitespace c) chars col :=
    skipWhileFwd_ge _ chars col
  have ha2 : skipWhileFwd (fun c => !rustIsWhitespace c) chars col ≤
      chars.length := skipWhileFwd_le _ chars col (Nat.le_of_lt hcol)
  have hqa : skipWhileFwd (fun c => !rustIsWhitespace c) chars col ≤
      skipWhileFwd rustIsWhitespace chars
        (skipWhileFwd (fun c => !rustIsWhitespace c) chars col) :=
    skipWhileFwd_ge _ chars _
  have hqlen : skipWhileFwd rustIsWhitespace chars
      (skipWhileFwd (fun c => !rustIsWhitespace c) chars col) ≤ chars.length :=
    skipWhileFwd_le _ chars _ ha2
  have hcolq : col < skipWhileFwd rustIsWhitespace chars
      (skipWhileFwd (fun c => !rustIsWhitespace c) chars col) := by
    cases hws : rustIsWhitespace (chars.get ⟨col, hcol⟩) with
    | false =>
      have hstep : skipWhileFwd (fun c => !rustIsWhitespace c) chars col =
          skipWhileFwd (fun c => !rustIsWhitespace c) chars (col + 1) :=
        skipWhileFwd_eq_step _ chars col hcol (by rw [hws]; rfl)
      have := skipWhileFwd_ge (fun c => !rustIsWhitespace c) chars (col + 1)
      omega
    | true =>
      have ha : skipWhileFwd (fun c => !rustIsWhitespace c) chars col = col :=
        skipWhileFwd_eq_stop _ chars col hcol (by rw [hws]; rfl)
      rw [ha]
      have hstep : skipWhileFwd rustIsWhitespace chars col =
          skipWhileFwd rustIsWhitespace chars (col + 1) :=
        skipWhileFwd_eq_step _ chars col hcol hws
      have := skipWhileFwd_ge rustIsWhitespace chars (col + 1)
      omega
  refine ⟨hcolq, hqlen, ?_⟩
  have hq1 : skipWhileFwd rustIsWhitespace chars
      (skipWhileFwd (fun c => !rustIsWhitespace c) chars col) - 1 <
      chars.length := by omega
  obtain ⟨p1, hp1⟩ := skipBackWhile_isSome rustIsWhitespace chars _ hq1
  have hp1le : p1 ≤ skipWhileFwd rustIsWhitespace chars
      (skipWhileFwd (fun c => !rustIsWhitespace c) chars col) - 1 :=
    skipBackWhile_le _ chars _ _ hp1
  have hp1lt : p1 < chars.length := by omega
  obtain ⟨p2, hp2⟩ :=
    skipBackWhile_isSome (fun c => !rustIsWhitespace c) chars p1 hp1lt
  have hp2le : p2 ≤ p1 := skipBackWhile_le _ chars _ _ hp2
  refine ⟨p1, p2, hp1, hp2, hp2le, hp1lt, ?_⟩
  by_cases hp20 : p2 = 0
  · exact Or.inl hp20
  · right
    rcases skipBackWhile_stop _ chars _ _ hp2 with h0 | ⟨c, hgc, hcws⟩
    · exact absurd h0 hp20
    have hwsc : rustIsWhitespace c = true := by
      cases hr : rustIsWhitespace c with
      | true => rfl
      | false => rw [hr] at hcws; simp at hcws
    refine ⟨c, hgc, hwsc, ?_⟩
    by_contra hge
    push_neg at hge
    have hp2a : skipWhileFwd (fun c => !rustIsWhitespace c) chars col ≤ p2 := by
      by_contra hlt2
      push_neg at hlt2
      obtain ⟨c2, hg2, hp2t⟩ :=
        skipWhileFwd_interval (fun c => !rustIsWhitespace c) chars col p2
          hge hlt2
      rw [hgc] at hg2
      cases hg2
      rw [hwsc] at hp2t
      simp at hp2t
    have hp1a : skipWhileFwd (fun c => !rustIsWhitespace c) chars col ≤ p1 :=
      le_trans hp2a hp2le
    have hp1q : p1 < skipWhileFwd rustIsWhitespace chars
        (skipWhileFwd (fun c => !rustIsWhitespace c) chars col) := by omega
    obtain ⟨c1, hg1, hws1⟩ :=
      skipWhileFwd_interval rustIsWhitespace chars _ p1 hp1a hp1q
    rcases Nat.eq_or_lt_of_le hp2le with heq | hlt
    · subst heq
      rcases skipBackWhile_stop rustIsWhitespace chars _ _ hp1 with h0' |
        ⟨c1', hg1', hws1'⟩
      · exact hp20 h0'
      · rw [hg1] at hg1'
        cases hg1'
        rw [hws1] at hws1'
        simp at hws1'
    · obtain ⟨c1'', hg1'', hws1''⟩ :=
        skipBackWhile_interval (fun c => !rustIsWhitespace c) chars _ _ hp2
          p1 hlt (le_refl p1)
      rw [hg1] at hg1''
      cases hg1''
      rw [hws1] at hws1''
      simp at hws1''

/-- Claim C7, amended.  On buffers whose lines are ASCII (where the byte
columns of the source coincide with char indices, so the char-vector
indexing of move_word_left cannot go out of bounds), wordRight followed by
wordLeft from any in-bounds position never panics, keeps the cursor inside
the buffer at both steps, and lands at a column at most the starting
column — EXCEPT when starting at column 0 of an empty last line preceded by
another line, where wordRight cannot move and wordLeft jumps to the end of
the previous line (a column that can exceed 0).  On non-ASCII lines
move_word_left can panic (see the counterexample in C7's record). -/
theorem C7_word_motions (b : TextBuffer) (cur : Cursor)
    (hascii : ∀ l ∈ b.lines, asciiLine l)
    (hrow : cur.row < b.line_count)
    (hcol : cur.col ≤ b.get_line_length cur.row) :
    ∃ c2, (cur.move_word_right b).move_word_left b = some c2 ∧
      (cur.move_word_right b).row < b.line_count ∧
      (cur.move_word_right b).col ≤
        b.get_line_length (cur.move_word_right b).row ∧
      c2.row < b.line_count ∧
      c2.col ≤ b.get_line_length c2.row ∧
      (c2.col ≤ cur.col ∨
        (cur.col = 0 ∧ b.get_line_length cur.row = 0 ∧ 0 < cur.row ∧
          cur.row = b.line_count - 1 ∧ c2.row = cur.row - 1 ∧
          c2.col = b.get_line_length (cur.row - 1))) := by
  have hrow' : cur.row < b.lines.length := hrow
  have hmem : b.get_line cur.row ∈ b.lines := by
    have hgl : b.get_line cur.row = b.lines[cur.row] := by
      simp [TextBuffer.get_line, List.get?_eq_getElem?,
        List.getElem?_eq_getElem hrow']
    rw [hgl]
    exact List.getElem_mem hrow'
  have hbl : byteLen (b.get_line cur.row) = (b.get_line cur.row).length :=
    byteLen_ascii _ (hascii _ hmem)
  have hlc : b.line_count = b.lines.length := rfl
  have hgll : b.get_line_length cur.row = (b.get_line cur.row).length := hbl
  by_cases hc : byteLen (b.get_line cur.row) ≤ cur.col
  · -- the cursor is at the end of its line (col = byte length)
    have hceq : cur.col = byteLen (b.get_line cur.row) :=
      Nat.le_antisymm hcol hc
    by_cases hlt : cur.row < b.line_count - 1
    · -- wordRight moves to the start of the next line, wordLeft comes back
      have hmwr : cur.move_word_right b = ⟨cur.row + 1, 0, 0⟩ := by
        simp only [Cursor.move_word_right]
        rw [if_pos hc, if_pos hlt]
      have hmwl : Cursor.move_word_left ⟨cur.row + 1, 0, 0⟩ b =
          some ⟨cur.row, b.get_line_length cur.row,
            b.get_line_length cur.row⟩ := by
        simp [Cursor.move_word_left]
      rw [hmwr, hmwl]
      refine ⟨_, rfl, ?_, Nat.zero_le _, hrow, le_refl _, Or.inl ?_⟩
      · show cur.row + 1 < b.line_count
        omega
      · show b.get_line_length cur.row ≤ cur.col
        omega
    · -- last line: wordRight does not move
      have hmwr : cur.move_word_right b = cur := by
        simp only [Cursor.move_word_right]
        rw [if_pos hc, if_neg hlt]
      rw [hmwr]
      by_cases hn0 : byteLen (b.get_line cur.row) = 0
      · -- empty last line, so the column is 0
        have hc0 : cur.col = 0 := by omega
        by_cases hr0 : 0 < cur.row
        · -- the exception: wordLeft jumps to the end of the previous line
          have hmwl : cur.move_word_left b =
              some ⟨cur.row - 1, b.get_line_length (cur.row - 1),
                b.get_line_length (cur.row - 1)⟩ := by
            simp only [Cursor.move_word_left]
            rw [if_pos hc0, if_pos hr0]
          rw [hmwl]
          refine ⟨_, rfl, hrow, hcol, ?_, le_refl _,
            Or.inr ⟨hc0, hn0, hr0, by omega, rfl, rfl⟩⟩
          show cur.row - 1 < b.line_count
          omega
        · -- single line: wordLeft does not move either
          have hmwl : cur.move_word_left b = some cur := by
            simp only [Cursor.move_word_left]
            rw [if_pos hc0, if_neg hr0]
          rw [hmwl]
          exact ⟨_, rfl, hrow, hcol, hrow, hcol, Or.inl (le_refl _)⟩
      · -- nonempty last line: wordLeft scans backward inside the line
        have hcne : ¬(cur.col = 0) := by omega
        have hq1 : cur.col - 1 < (b.get_line cur.row).length := by omega
        obtain ⟨p1, hp1⟩ :=
          skipBackWhile_isSome rustIsWhitespace (b.get_line cur.row) _ hq1
        have hp1le : p1 ≤ cur.col - 1 :=
          skipBackWhile_le _ _ _ _ hp1
        have hp1lt : p1 < (b.get_line cur.row).length := by omega
        obtain ⟨p2, hp2⟩ :=
          skipBackWhile_isSome (fun c => !rustIsWhitespace c)
            (b.get_line cur.row) p1 hp1lt
        have hp2le : p2 ≤ p1 := skipBackWhile_le _ _ _ _ hp2
        by_cases hp20 : 0 < p2
        · have hp2lt : p2 < (b.get_line cur.row).length := by omega
          have hgc : (b.get_line cur.row).get? p2 =
              some ((b.get_line cur.row).get ⟨p2, hp2lt⟩) := by
            rw [List.get?_eq_getElem?, List.getElem?_eq_getElem hp2lt]
            rfl
          have hmwl : cur.move_word_left b =
              some ⟨cur.row,
                if rustIsWhitespace ((b.get_line cur.row).get ⟨p2, hp2lt⟩)
                then p2 + 1 else p2,
                if rustIsWhitespace ((b.get_line cur.row).get ⟨p2, hp2lt⟩)
                then p2 + 1 else p2⟩ := by
            simp only [Cursor.move_word_left]
            rw [if_neg hcne]
            simp only [hp1, hp2, if_pos hp20, hgc]
          rw [hmwl]
          refine ⟨_, rfl, hrow, hcol, hrow, ?_, Or.inl ?_⟩
          · show (if rustIsWhitespace ((b.get_line cur.row).get ⟨p2, hp2lt⟩)
                then p2 + 1 else p2) ≤ b.get_line_length cur.row
            split <;> omega
          · show (if rustIsWhitespace ((b.get_line cur.row).get ⟨p2, hp2lt⟩)
                then p2 + 1 else p2) ≤ cur.col
            split <;> omega
        · have hmwl : cur.move_word_left b = some ⟨cur.row, p2, p2⟩ := by
            simp only [Cursor.move_word_left]
            rw [if_neg hcne]
            simp only [hp1, hp2, if_neg hp20]
          rw [hmwl]
          refine ⟨_, rfl, hrow, hcol, hrow, ?_, Or.inl ?_⟩
          · show p2 ≤ b.get_line_length cur.row
            omega
          · show p2 ≤ cur.col
            omega
  · -- the cursor is inside the line: both scans stay on this line
    have hclt : cur.col < (b.get_line cur.row).length := by omega
    obtain ⟨hcolq, hqlen, p1, p2, hp1, hp2, hp2le, hp1lt, hdisj⟩ :=
      word_back_le (b.get_line cur.row) cur.col hclt
    have hminq : min (skipWhileFwd rustIsWhitespace (b.get_line cur.row)
        (skipWhileFwd (fun c => !rustIsWhitespace c) (b.get_line cur.row)
          cur.col)) (byteLen (b.get_line cur.row)) =
        skipWhileFwd rustIsWhitespace (b.get_line cur.row)
          (skipWhileFwd (fun c => !rustIsWhitespace c) (b.get_line cur.row)
            cur.col) :=
      Nat.min_eq_left (by omega)
    have hmwr : cur.move_word_right b =
        ⟨cur.row,
          skipWhileFwd rustIsWhitespace (b.get_line cur.row)
            (skipWhileFwd (fun c => !rustIsWhitespace c) (b.get_line cur.row)
              cur.col),
          skipWhileFwd rustIsWhitespace (b.get_line cur.row)
            (skipWhileFwd (fun c => !rustIsWhitespace c) (b.get_line cur.row)
              cur.col)⟩ := by
      simp only [Cursor.move_word_right]
      rw [if_neg hc, hminq]
    have hqne : ¬(skipWhileFwd rustIsWhitespace (b.get_line cur.row)
        (skipWhileFwd (fun c => !rustIsWhitespace c) (b.get_line cur.row)
          cur.col) = 0) := by omega
    rw [hmwr]
    by_cases hp20 : 0 < p2
    · -- the backward scan stopped on whitespace strictly below the column
      rcases hdisj with h0 | ⟨c, hgc, hwsc, hp2col⟩
      · omega
      have hmwl : Cursor.move_word_left
          ⟨cur.row,
            skipWhileFwd rustIsWhitespace (b.get_line cur.row)
              (skipWhileFwd (fun c => !rustIsWhitespace c)
                (b.get_line cur.row) cur.col),
            skipWhileFwd rustIsWhitespace (b.get_line cur.row)
              (skipWhileFwd (fun c => !rustIsWhitespace c)
                (b.get_line cur.row) cur.col)⟩ b =
          some ⟨cur.row, p2 + 1, p2 + 1⟩ := by
        simp only [Cursor.move_word_left]
        rw [if_neg hqne]
        simp only [hp1, hp2, if_pos hp20, hgc, hwsc, if_pos]
      rw [hmwl]
      refine ⟨_, rfl, hrow, ?_, hrow, ?_, Or.inl ?_⟩
      · show skipWhileFwd rustIsWhitespace (b.get_line cur.row)
          (skipWhileFwd (fun c => !rustIsWhitespace c) (b.get_line cur.row)
            cur.col) ≤ b.get_line_length cur.row
        omega
      · show p2 + 1 ≤ b.get_line_length cur.row
        omega
      · show p2 + 1 ≤ cur.col
        omega
    · -- the backward scan reached position 0
      have hp2z : p2 = 0 := by omega
      subst hp2z
      have hmwl : Cursor.move_word_left
          ⟨cur.row,
            skipWhileFwd rustIsWhitespace (b.get_line cur.row)
              (skipWhileFwd (fun c => !rustIsWhitespace c)
                (b.get_line cur.row) cur.col),
            skipWhileFwd rustIsWhitespace (b.get_line cur.row)
              (skipWhileFwd (fun c => !rustIsWhitespace c)
                (b.get_line cur.row) cur.col)⟩ b =
          some ⟨cur.row, 0, 0⟩ := by
        simp only [Cursor.move_word_left]
        rw [if_neg hqne]
        simp only [hp1, hp2, if_neg hp20]
      rw [hmwl]
      refine ⟨_, rfl, hrow, ?_, hrow, ?_, Or.inl ?_⟩
      · show skipWhileFwd rustIsWhitespace (b.get_line cur.row)
          (skipWhileFwd (fun c => !rustIsWhitespace c) (b.get_line cur.row)
            cur.col) ≤ b.get_line_length cur.row
        omega
      · show (0 : Nat) ≤ b.get_line_length cur.row
        exact Nat.zero_le _
      · show (0 : Nat) ≤ cur.col
        exact Nat.zero_le _

/-- Claim C7, counterexample.  On the pure-ASCII buffer with lines "ab" and
"" and the in-bounds start (row 1, column 0) — the last row at column 0 —
wordRight cannot move and wordLeft lands at (row 0, column 2): the composed
motion ends at a column strictly GREATER than the starting column,
refuting the claimed inequality.  Separately, on the one-line buffer "é"
with the in-bounds byte column 2 (the line's byte length), move_word_left
indexes the one-element char vector at position 1 and panics, refuting the
never-panics part. -/
theorem C7_counterexample :
    Cursor.move_word_right ⟨1, 0, 0⟩ ⟨[['a','b'], []], none, [], [], 100⟩ =
      ⟨1, 0, 0⟩ ∧
    Cursor.move_word_left ⟨1, 0, 0⟩ ⟨[['a','b'], []], none, [], [], 100⟩ =
      some ⟨0, 2, 2⟩ ∧
    ¬((2 : Nat) ≤ 0) ∧
    Cursor.move_word_left
      (Cursor.move_word_right ⟨0, 2, 2⟩ ⟨[['é']], none, [], [], 100⟩)
      ⟨[['é']], none, [], [], 100⟩ = none ∧
    TextBuffer.get_line_length ⟨[['é']], none, [], [], 100⟩ 0 = 2 := by
  decide

/-- Claim C7, witness: the amended theorem applied to the one-line ASCII
buffer "ab cd" starting at (0, 0). -/
theorem C7_witness :
    ∃ c2, (Cursor.move_word_right ⟨0, 0, 0⟩
        ⟨[['a','b',' ','c','d']], none, [], [], 100⟩).move_word_left
        ⟨[['a','b',' ','c','d']], none, [], [], 100⟩ = some c2 ∧
      (Cursor.move_word_right ⟨0, 0, 0⟩
        ⟨[['a','b',' ','c','d']], none, [], [], 100⟩).row <
        TextBuffer.line_count ⟨[['a','b',' ','c','d']], none, [], [], 100⟩ ∧
      (Cursor.move_word_right ⟨0, 0, 0⟩
        ⟨[['a','b',' ','c','d']], none, [], [], 100⟩).col ≤
        TextBuffer.get_line_length ⟨[['a','b',' ','c','d']], none, [], [], 100⟩
          (Cursor.move_word_right ⟨0, 0, 0⟩
            ⟨[['a','b',' ','c','d']], none, [], [], 100⟩).row ∧
      c2.row < TextBuffer.line_count ⟨[['a','b',' ','c','d']], none, [], [], 100⟩ ∧
      c2.col ≤ TextBuffer.get_line_length
        ⟨[['a','b',' ','c','d']], none, [], [], 100⟩ c2.row ∧
      (c2.col ≤ 0 ∨ (0 = 0 ∧
        TextBuffer.get_line_length ⟨[['a','b',' ','c','d']], none, [], [], 100⟩ 0 = 0 ∧
        0 < 0 ∧ 0 = TextBuffer.line_count ⟨[['a','b',' ','c','d']], none, [], [], 100⟩ - 1 ∧
        c2.row = 0 - 1 ∧
        c2.col = TextBuffer.get_line_length
          ⟨[['a','b',' ','c','d']], none, [], [], 100⟩ (0 - 1))) :=
  C7_word_motions ⟨[['a','b',' ','c','d']], none, [], [], 100⟩ ⟨0, 0, 0⟩
    (by decide) (by decide) (by decide)

end WritersCli
